import Mathlib

/-!
Verification of the vector memory subsystem (the `s3_vector_memory` tool of
this repository).  The repository ships the tool's README and notebooks; the
tool's own implementation file (`s3_memory.py`) is not part of the sources at
hand, so the operations below are modelled from the design specification and
from the behaviour documented in the README (key format, defaults, actions,
response shapes).  All definitions are executable.
-/

set_option maxHeartbeats 1000000

namespace S3Memory

/-- Modelled from the spec: the error kinds of the memory tool (spec section 7).
The tool's implementation file `s3_memory.py` is not under the sources. -/
inductive MemError where
  | AuthorizationError
  | ValidationError
  | EmbeddingFailure
  | BackendUnavailable
deriving Repr, DecidableEq

/-- Modelled from the spec: a wall-clock timestamp at second resolution, the
resolution shown by the README's `memory_key` example
`user123_20250108_143022_abc123`. -/
structure Timestamp where
  year : Nat
  month : Nat
  day : Nat
  hour : Nat
  minute : Nat
  second : Nat
deriving Repr, DecidableEq

/-- Modelled from the spec: fixed-width zero-padded decimal digits, as used by
the README's `memory_key` timestamp (`YYYYMMDD_HHMMSS`). -/
def padDigits : Nat → Nat → List Char
  | 0, _ => []
  | w + 1, n => padDigits w (n / 10) ++ [Nat.digitChar (n % 10)]

/-- Modelled from the spec: the `YYYYMMDD` date part of a memory key. -/
def dateChars (t : Timestamp) : List Char :=
  padDigits 4 t.year ++ (padDigits 2 t.month ++ padDigits 2 t.day)

/-- Modelled from the spec: the `HHMMSS` time part of a memory key. -/
def timeChars (t : Timestamp) : List Char :=
  padDigits 2 t.hour ++ (padDigits 2 t.minute ++ padDigits 2 t.second)

/-- Modelled from the spec: the `YYYYMMDD_HHMMSS` timestamp rendering used
inside a memory key. -/
def tsFmt (t : Timestamp) : String :=
  String.mk (dateChars t ++ '_' :: timeChars t)

/-- Modelled from the spec: a numeric encoding of a timestamp used as the
record's `created_at` field; lexicographically compatible with time order. -/
def tsCode (t : Timestamp) : Nat :=
  ((((t.year * 100 + t.month) * 100 + t.day) * 100 + t.hour) * 100 + t.minute) * 100
    + t.second

/-- Modelled from the spec: a stored memory record (spec section 3): unique id,
owner identity, opaque text content, embedding vector, creation time. -/
structure MemoryRecord where
  id : String
  owner : String
  content : String
  embedding : List Rat
  created_at : Nat
deriving Repr, DecidableEq

/-- The backend state: the records inserted so far, in insertion order. -/
abbrev State := List MemoryRecord

/-- Modelled from the spec: key generation for a new record — the owner id,
an underscore, the `YYYYMMDD_HHMMSS` timestamp, an underscore and a random
suffix, exactly the README's `user123_20250108_143022_abc123` shape. -/
def memory_key (user_id : String) (now : Timestamp) (rand : String) : String :=
  user_id ++ "_" ++ tsFmt now ++ "_" ++ rand

/-- Modelled from the spec: `store(content, owner)` (spec section 4.3): reject a
missing owner or empty content, embed the content, generate a key, append the
record to the backend, return the key. -/
def store (embed : String → Option (List Rat)) (st : State)
    (content user_id : String) (now : Timestamp) (rand : String) :
    Except MemError (State × String) :=
  if user_id = "" then .error .AuthorizationError
  else if content = "" then .error .ValidationError
  else
    match embed content with
    | none => .error .EmbeddingFailure
    | some vec =>
        .ok (st ++ [⟨memory_key user_id now rand, user_id, content, vec, tsCode now⟩],
          memory_key user_id now rand)

/-- Modelled from the spec: the owner equality filter injected into every
backend read (spec section 4.5). -/
def ownerRecords (st : State) (user_id : String) : List MemoryRecord :=
  st.filter (fun r => r.owner == user_id)

/-- Modelled from the spec: the backend similarity query with the owner filter
baked in — each record of the owner paired with its similarity score. -/
def backendQuery (sim : List Rat → List Rat → Rat) (st : State)
    (vec : List Rat) (user_id : String) : List (MemoryRecord × Rat) :=
  (ownerRecords st user_id).map (fun r => (r, sim vec r.embedding))

/-- Modelled from the spec: the ranking order of retrieval results — descending
score, ties broken by more-recent `created_at` first. -/
def rankPref (a b : MemoryRecord × Rat) : Bool :=
  decide (b.2 < a.2) || (a.2 == b.2 && decide (b.1.created_at ≤ a.1.created_at))

/-- Insertion into a ranked list, used by the retrieval ranker's sort. -/
def insertBy {α : Type} (pref : α → α → Bool) (x : α) : List α → List α
  | [] => [x]
  | y :: t => if pref x y then x :: y :: t else y :: insertBy pref x t

/-- Insertion sort by a ranking predicate (a stable sort, smallest code that
realises the spec's "sort descending by score" step). -/
def isortBy {α : Type} (pref : α → α → Bool) : List α → List α
  | [] => []
  | x :: t => insertBy pref x (isortBy pref t)

/-- Modelled from the spec: `retrieve(query, owner, topK, minScore)` (spec
section 4.4): validate inputs, embed the query, run the owner-filtered backend
query, discard scores below `minScore`, sort descending with recency
tie-break, truncate to `topK`.  An empty result is a success. -/
def retrieve (embed : String → Option (List Rat)) (sim : List Rat → List Rat → Rat)
    (st : State) (query user_id : String) (top_k : Nat) (min_score : Rat) :
    Except MemError (List (MemoryRecord × Rat)) :=
  if user_id = "" then .error .AuthorizationError
  else if query = "" then .error .ValidationError
  else if top_k = 0 then .error .ValidationError
  else
    match embed query with
    | none => .error .EmbeddingFailure
    | some qv =>
        .ok ((isortBy rankPref ((backendQuery sim st qv user_id).filter
          (fun p => decide (min_score ≤ p.2)))).take top_k)

/-- Modelled from the spec: `list(owner)` (spec section 4.4): pure enumeration
of the owner's records, no similarity computation; empty result is success. -/
def list (st : State) (user_id : String) : Except MemError (List MemoryRecord) :=
  if user_id = "" then .error .AuthorizationError
  else .ok (ownerRecords st user_id)

/-- Modelled from the spec: the README's default `top_k` (20). -/
def defaultTopK : Nat := 20

/-- Modelled from the spec: the README's default `min_score` (0.1). -/
def defaultMinScore : Rat := ⟨1, 10, by norm_num, by norm_num⟩

/-- Modelled from the spec: the combined outcome of `auto_store_and_retrieve`:
the state after the optional store step, the reported store outcome (`none`
when no content was supplied), and the result of the retrieval step. -/
structure AutoResult where
  state : State
  store_outcome : Option (Except MemError String)
  retrieved : Except MemError (List (MemoryRecord × Rat))

/-- Modelled from the spec: `auto_store_and_retrieve(owner, content?, query?)`
(spec section 4.6): when content is present the store step runs first and its
failure is reported but does not abort the retrieval, which uses the query (or
the content when no query is given) with the default `topK`/`minScore`. -/
def auto_store_and_retrieve (embed : String → Option (List Rat))
    (sim : List Rat → List Rat → Rat) (st : State) (user_id : String)
    (content query : Option String) (now : Timestamp) (rand : String) :
    Except MemError AutoResult :=
  if user_id = "" then .error .AuthorizationError
  else
    match content with
    | some c =>
        match store embed st c user_id now rand with
        | .ok (st', key) =>
            .ok ⟨st', some (.ok key),
              retrieve embed sim st' (query.getD c) user_id defaultTopK defaultMinScore⟩
        | .error e =>
            .ok ⟨st, some (.error e),
              retrieve embed sim st (query.getD c) user_id defaultTopK defaultMinScore⟩
    | none =>
        .ok ⟨st, none,
          retrieve embed sim st (query.getD "") user_id defaultTopK defaultMinScore⟩

/-- Modelled from the spec: recency order used by `auto_context`. -/
def recentPref (a b : MemoryRecord) : Bool :=
  decide (b.created_at ≤ a.created_at)

/-- Modelled from the spec: `auto_context(owner, limit)` (spec section 4.6):
the owner's records capped to the most recent `limit` entries. -/
def auto_context (st : State) (user_id : String) (limit : Nat) :
    Except MemError (List MemoryRecord) :=
  if user_id = "" then .error .AuthorizationError
  else .ok ((isortBy recentPref (ownerRecords st user_id)).take limit)

/-- Modelled from the spec: the five actions of the tool's discriminated
`action` parameter (README "Actions" table). -/
inductive Action where
  | store
  | retrieve
  | list
  | auto_store_and_retrieve
  | auto_context
deriving Repr, DecidableEq

/-- Modelled from the spec: the tool's keyword parameters (README "Parameters"
table); `user_id` is optional at the call surface and validated by the guard. -/
structure Params where
  content : Option String
  query : Option String
  user_id : Option String
  top_k : Nat
  min_score : Rat
  limit : Nat

/-- Modelled from the spec: the tool's response payloads (README "Response
Format"). -/
inductive Output where
  | stored (st : State) (memory_key : String)
  | memories (results : List (MemoryRecord × Rat))
  | listed (results : List MemoryRecord)
  | combined (result : AutoResult)

/-- Modelled from the spec: the single tool entry point dispatching on
`action`; a missing `user_id` is treated as the empty owner and rejected by
every operation's guard. -/
def s3_vector_memory (embed : String → Option (List Rat))
    (sim : List Rat → List Rat → Rat) (st : State) (action : Action)
    (p : Params) (now : Timestamp) (rand : String) : Except MemError Output :=
  match action with
  | .store =>
      (store embed st (p.content.getD "") (p.user_id.getD "") now rand).map
        (fun r => Output.stored r.1 r.2)
  | .retrieve =>
      (retrieve embed sim st (p.query.getD "") (p.user_id.getD "") p.top_k
        p.min_score).map Output.memories
  | .list => (list st (p.user_id.getD "")).map Output.listed
  | .auto_store_and_retrieve =>
      (auto_store_and_retrieve embed sim st (p.user_id.getD "") p.content p.query
        now rand).map Output.combined
  | .auto_context => (auto_context st (p.user_id.getD "") p.limit).map Output.listed

/-- One call of the `store` action, for reasoning about whole store traces. -/
structure StoreCall where
  content : String
  user_id : String
  now : Timestamp
  rand : String

/-- Runs a trace of `store` calls against a starting state, keeping the old
state whenever a call fails. -/
def runStores (embed : String → Option (List Rat)) (st : State) :
    List StoreCall → State
  | [] => st
  | c :: cs =>
      match store embed st c.content c.user_id c.now c.rand with
      | .ok (st', _) => runStores embed st' cs
      | .error _ => runStores embed st cs

/-- The ids successfully returned to owner `u` by a trace of `store` calls. -/
def storedIds (embed : String → Option (List Rat)) (st : State) (u : String) :
    List StoreCall → List String
  | [] => []
  | c :: cs =>
      match store embed st c.content c.user_id c.now c.rand with
      | .ok (st', key) =>
          (if c.user_id = u then [key] else []) ++ storedIds embed st' u cs
      | .error _ => storedIds embed st u cs

/-- A concrete embedding provider used by the witnesses: one-dimensional,
the vector holds the text length. -/
def embed0 : String → Option (List Rat) :=
  fun s => some [(s.length : Rat)]

/-- A concrete similarity function used by the witnesses: 1 on equal vectors,
0 otherwise. -/
def sim0 : List Rat → List Rat → Rat :=
  fun a b => if a = b then 1 else 0

/-- A concrete embedding provider whose call fails on the text "bad", used to
exercise graceful degradation. -/
def embed1 : String → Option (List Rat) :=
  fun s => if s = "bad" then none else embed0 s

/-- The state reached after the optional store step of
`auto_store_and_retrieve`: the new state on success, the old one on failure. -/
def autoState (embed : String → Option (List Rat)) (st : State)
    (c user_id : String) (now : Timestamp) (rand : String) : State :=
  match store embed st c user_id now rand with
  | .ok (st', _) => st'
  | .error _ => st

/-- Concrete timestamp used by the witnesses. -/
def t0 : Timestamp := ⟨2025, 1, 8, 14, 30, 22⟩

/-- Concrete record of owner u1 used by the witnesses. -/
def rec1 : MemoryRecord := ⟨"u1_a", "u1", "alpha", [(5 : Rat)], 1⟩

/-- Concrete record of owner u2 used by the witnesses. -/
def rec2 : MemoryRecord := ⟨"u2_a", "u2", "beta", [(4 : Rat)], 2⟩

/-- A second concrete record of owner u1 used by the witnesses. -/
def rec3 : MemoryRecord := ⟨"u1_b", "u1", "gamma", [(99 : Rat)], 5⟩

/-- Concrete backend state used by the witnesses. -/
def st0 : State := [rec1, rec2, rec3]

/-- Concrete parameter set with a missing `user_id`, used by the witnesses. -/
def p0 : Params := ⟨some "c", some "q", none, 5, 0, 3⟩

/-- Concrete trace of store calls used by the witnesses (the last call fails on
empty content). -/
def ops0 : List StoreCall :=
  [⟨"alpha", "u1", t0, "r1"⟩, ⟨"beta", "u2", t0, "r2"⟩, ⟨"", "u1", t0, "r3"⟩]

/-! ### Lemmas about the ranking sort -/

theorem mem_insertBy {α : Type} (pref : α → α → Bool) (x a : α) (l : List α) :
    a ∈ insertBy pref x l ↔ a = x ∨ a ∈ l := by
  induction l with
  | nil => simp [insertBy]
  | cons y t ih =>
      simp only [insertBy]
      split
      · simp [List.mem_cons]
      · simp only [List.mem_cons, ih]
        tauto

theorem mem_isortBy {α : Type} (pref : α → α → Bool) (a : α) (l : List α) :
    a ∈ isortBy pref l ↔ a ∈ l := by
  induction l with
  | nil => simp [isortBy]
  | cons x t ih => simp [isortBy, mem_insertBy, ih]

theorem pairwise_insertBy {α : Type} (pref : α → α → Bool)
    (htot : ∀ a b, pref a b = true ∨ pref b a = true)
    (htrans : ∀ a b c, pref a b = true → pref b c = true → pref a c = true)
    (x : α) (l : List α) (hl : l.Pairwise (fun a b => pref a b = true)) :
    (insertBy pref x l).Pairwise (fun a b => pref a b = true) := by
  induction l with
  | nil => simp [insertBy]
  | cons y t ih =>
      rcases List.pairwise_cons.mp hl with ⟨hy, ht⟩
      simp only [insertBy]
      by_cases h : pref x y = true
      · rw [if_pos h]
        refine List.pairwise_cons.mpr ⟨?_, hl⟩
        intro z hz
        rcases List.mem_cons.mp hz with rfl | hz'
        · exact h
        · exact htrans x y z h (hy z hz')
      · rw [if_neg h]
        refine List.pairwise_cons.mpr ⟨?_, ih ht⟩
        intro z hz
        rcases (mem_insertBy pref x z t).mp hz with hzx | hz'
        · rw [hzx]
          rcases htot x y with h1 | h1
          · exact absurd h1 h
          · exact h1
        · exact hy z hz'

theorem pairwise_isortBy {α : Type} (pref : α → α → Bool)
    (htot : ∀ a b, pref a b = true ∨ pref b a = true)
    (htrans : ∀ a b c, pref a b = true → pref b c = true → pref a c = true)
    (l : List α) :
    (isortBy pref l).Pairwise (fun a b => pref a b = true) := by
  induction l with
  | nil => simp [isortBy]
  | cons x t ih => exact pairwise_insertBy pref htot htrans x _ ih

theorem filter_insertBy_of_neg {α : Type} (pref : α → α → Bool) (q : α → Bool)
    (x : α) (hx : q x = false) (l : List α) :
    (insertBy pref x l).filter q = l.filter q := by
  induction l with
  | nil => simp [insertBy, hx]
  | cons y t ih =>
      simp only [insertBy]
      by_cases h : pref x y = true
      · rw [if_pos h]
        simp [List.filter_cons, hx]
      · rw [if_neg h]
        simp only [List.filter_cons, ih]

theorem filter_insertBy_of_pos {α : Type} (pref : α → α → Bool) (q : α → Bool)
    (x : α) (hup : ∀ a b, pref a b = true → q b = true → q a = true)
    (hx : q x = true) (l : List α)
    (hl : l.Pairwise (fun a b => pref a b = true)) :
    (insertBy pref x l).filter q = insertBy pref x (l.filter q) := by
  induction l with
  | nil => simp [insertBy, hx]
  | cons y t ih =>
      rcases List.pairwise_cons.mp hl with ⟨hy, ht⟩
      simp only [insertBy]
      by_cases hpxy : pref x y = true
      · rw [if_pos hpxy]
        by_cases hqy : q y = true
        · simp [List.filter_cons, hx, hqy, insertBy, hpxy]
        · have hqt : t.filter q = [] := by
            refine List.filter_eq_nil_iff.mpr ?_
            intro z hz hqz
            exact hqy (hup y z (hy z hz) hqz)
          simp [List.filter_cons, hx, hqy, hqt, insertBy]
      · rw [if_neg hpxy]
        by_cases hqy : q y = true
        · simp [List.filter_cons, hqy, insertBy, hpxy, ih ht]
        · simp [List.filter_cons, hqy, ih ht]

theorem isortBy_filter {α : Type} (pref : α → α → Bool) (q : α → Bool)
    (htot : ∀ a b, pref a b = true ∨ pref b a = true)
    (htrans : ∀ a b c, pref a b = true → pref b c = true → pref a c = true)
    (hup : ∀ a b, pref a b = true → q b = true → q a = true) (l : List α) :
    isortBy pref (l.filter q) = (isortBy pref l).filter q := by
  induction l with
  | nil => rfl
  | cons x t ih =>
      simp only [List.filter_cons, isortBy]
      by_cases hx : q x = true
      · rw [if_pos hx]
        simp only [isortBy]
        rw [ih, ← filter_insertBy_of_pos pref q x hup hx _
          (pairwise_isortBy pref htot htrans t)]
      · rw [if_neg hx]
        rw [ih, filter_insertBy_of_neg pref q x (by simpa using hx)]

theorem filter_eq_takeWhile_of_sorted {α : Type} (pref : α → α → Bool)
    (q : α → Bool) (hup : ∀ a b, pref a b = true → q b = true → q a = true) :
    ∀ (l : List α), l.Pairwise (fun a b => pref a b = true) →
      l.filter q = l.takeWhile q := by
  intro l
  induction l with
  | nil => intro _; rfl
  | cons y t ih =>
      intro hl
      rcases List.pairwise_cons.mp hl with ⟨hy, ht⟩
      by_cases hqy : q y = true
      · simp [List.filter_cons, List.takeWhile_cons, hqy, ih ht]
      · have hqt : t.filter q = [] := by
          refine List.filter_eq_nil_iff.mpr ?_
          intro z hz hqz
          exact hqy (hup y z (hy z hz) hqz)
        simp [List.filter_cons, List.takeWhile_cons, hqy, hqt]

theorem mem_take_takeWhile {α : Type} (q : α → Bool) (x : α) :
    ∀ (l : List α) (k : Nat), x ∈ (l.takeWhile q).take k → x ∈ l.take k := by
  intro l
  induction l with
  | nil => intro k h; simp at h
  | cons y t ih =>
      intro k h
      by_cases hqy : q y = true
      · cases k with
        | zero => simp at h
        | succ k =>
            rw [List.takeWhile_cons, if_pos hqy] at h
            simp only [List.take_succ_cons, List.mem_cons] at h ⊢
            rcases h with rfl | h
            · exact Or.inl rfl
            · exact Or.inr (ih k h)
      · rw [List.takeWhile_cons, if_neg hqy] at h
        simp at h

/-! ### The ranking predicate is a total preorder -/

theorem rankPref_iff (a b : MemoryRecord × Rat) :
    rankPref a b = true ↔
      b.2 < a.2 ∨ (a.2 = b.2 ∧ b.1.created_at ≤ a.1.created_at) := by
  simp [rankPref]

theorem rankPref_total (a b : MemoryRecord × Rat) :
    rankPref a b = true ∨ rankPref b a = true := by
  rcases lt_trichotomy a.2 b.2 with h | h | h
  · exact Or.inr ((rankPref_iff b a).mpr (Or.inl h))
  · rcases Nat.le_total b.1.created_at a.1.created_at with hc | hc
    · exact Or.inl ((rankPref_iff a b).mpr (Or.inr ⟨h, hc⟩))
    · exact Or.inr ((rankPref_iff b a).mpr (Or.inr ⟨h.symm, hc⟩))
  · exact Or.inl ((rankPref_iff a b).mpr (Or.inl h))

theorem rankPref_trans (a b c : MemoryRecord × Rat)
    (hab : rankPref a b = true) (hbc : rankPref b c = true) :
    rankPref a c = true := by
  rw [rankPref_iff] at hab hbc ⊢
  rcases hab with h1 | ⟨h1, h1c⟩ <;> rcases hbc with h2 | ⟨h2, h2c⟩
  · exact Or.inl (lt_trans h2 h1)
  · exact Or.inl (by rw [← h2]; exact h1)
  · exact Or.inl (by rw [h1]; exact h2)
  · exact Or.inr ⟨h1.trans h2, h2c.trans h1c⟩

theorem rankPref_upclosed (m : Rat) (a b : MemoryRecord × Rat)
    (hab : rankPref a b = true) (hb : decide (m ≤ b.2) = true) :
    decide (m ≤ a.2) = true := by
  rw [rankPref_iff] at hab
  rw [decide_eq_true_eq] at hb ⊢
  rcases hab with h | ⟨h, _⟩
  · exact le_of_lt (lt_of_le_of_lt hb h)
  · rw [h]
    exact hb

/-! ### Characterisations of the operations -/

theorem store_ok (embed : String → Option (List Rat)) (st : State)
    (content user_id : String) (now : Timestamp) (rand : String)
    (st' : State) (key : String)
    (h : store embed st content user_id now rand = .ok (st', key)) :
    ∃ vec, embed content = some vec ∧ user_id ≠ "" ∧ content ≠ "" ∧
      key = memory_key user_id now rand ∧
      st' = st ++ [⟨key, user_id, content, vec, tsCode now⟩] := by
  by_cases hu : user_id = ""
  · simp [store, hu] at h
  by_cases hc : content = ""
  · simp [store, hu, hc] at h
  cases he : embed content with
  | none => simp [store, hu, hc, he] at h
  | some vec =>
      simp only [store, hu, hc, he, if_false] at h
      rcases Except.ok.inj h with h1
      rcases Prod.mk.injEq .. ▸ h1 with ⟨h2, h3⟩
      exact ⟨vec, rfl, hu, hc, h3.symm, by rw [← h2, h3]⟩

theorem retrieve_eq (embed : String → Option (List Rat))
    (sim : List Rat → List Rat → Rat) (st : State) (query user_id : String)
    (top_k : Nat) (min_score : Rat) (qv : List Rat)
    (hu : user_id ≠ "") (hq : query ≠ "") (hk : top_k ≠ 0)
    (he : embed query = some qv) :
    retrieve embed sim st query user_id top_k min_score =
      .ok ((isortBy rankPref ((backendQuery sim st qv user_id).filter
        (fun p => decide (min_score ≤ p.2)))).take top_k) := by
  simp [retrieve, hu, hq, hk, he]

theorem retrieve_ok_elim (embed : String → Option (List Rat))
    (sim : List Rat → List Rat → Rat) (st : State) (query user_id : String)
    (top_k : Nat) (min_score : Rat) (res : List (MemoryRecord × Rat))
    (h : retrieve embed sim st query user_id top_k min_score = .ok res) :
    ∃ qv, user_id ≠ "" ∧ query ≠ "" ∧ top_k ≠ 0 ∧ embed query = some qv ∧
      res = (isortBy rankPref ((backendQuery sim st qv user_id).filter
        (fun p => decide (min_score ≤ p.2)))).take top_k := by
  by_cases hu : user_id = ""
  · simp [retrieve, hu] at h
  by_cases hq : query = ""
  · simp [retrieve, hu, hq] at h
  by_cases hk : top_k = 0
  · simp [retrieve, hu, hq, hk] at h
  cases he : embed query with
  | none => simp [retrieve, hu, hq, hk, he] at h
  | some qv =>
      rw [retrieve_eq embed sim st query user_id top_k min_score qv hu hq hk he] at h
      exact ⟨qv, hu, hq, hk, rfl, (Except.ok.inj h).symm⟩

theorem mem_backendQuery (sim : List Rat → List Rat → Rat) (st : State)
    (vec : List Rat) (user_id : String) (p : MemoryRecord × Rat)
    (h : p ∈ backendQuery sim st vec user_id) :
    p.1.owner = user_id ∧ p.1 ∈ st ∧ p.2 = sim vec p.1.embedding := by
  rcases List.mem_map.mp h with ⟨r, hr, hp⟩
  rcases List.mem_filter.mp hr with ⟨hst, hbeq⟩
  have ho : r.owner = user_id := by simpa using hbeq
  rw [← hp]
  exact ⟨ho, hst, rfl⟩

/-! ### Lemmas about the memory key format -/

theorem padDigits_length (w : Nat) : ∀ n, (padDigits w n).length = w := by
  induction w with
  | zero => intro n; rfl
  | succ w ih => intro n; simp [padDigits, ih]

theorem digitChar_isDigit (k : Nat) (h : k < 10) :
    (Nat.digitChar k).isDigit = true := by
  interval_cases k <;> decide

theorem padDigits_all_digit (w : Nat) :
    ∀ n, (padDigits w n).all Char.isDigit = true := by
  induction w with
  | zero => intro n; rfl
  | succ w ih =>
      intro n
      simp only [padDigits, List.all_append, ih, Bool.true_and]
      simp [digitChar_isDigit (n % 10) (Nat.mod_lt _ (by norm_num))]

theorem dateChars_length (t : Timestamp) : (dateChars t).length = 8 := by
  simp [dateChars, padDigits_length]

theorem timeChars_length (t : Timestamp) : (timeChars t).length = 6 := by
  simp [timeChars, padDigits_length]

theorem dateChars_all_digit (t : Timestamp) :
    (dateChars t).all Char.isDigit = true := by
  simp [dateChars, List.all_append, padDigits_all_digit]

theorem timeChars_all_digit (t : Timestamp) :
    (timeChars t).all Char.isDigit = true := by
  simp [timeChars, List.all_append, padDigits_all_digit]

theorem tsFmt_data (t : Timestamp) :
    (tsFmt t).data = dateChars t ++ '_' :: timeChars t := rfl

theorem tsFmt_data_length (t : Timestamp) : (tsFmt t).data.length = 15 := by
  simp [tsFmt_data, List.length_append, dateChars_length, timeChars_length]

theorem memory_key_data (u : String) (t : Timestamp) (r : String) :
    (memory_key u t r).data =
      u.data ++ ('_' :: ((tsFmt t).data ++ '_' :: r.data)) := by
  simp only [memory_key, String.data_append, List.append_assoc]
  rfl

theorem memory_key_suffix (u : String) (t : Timestamp) (r : String) :
    (memory_key u t r).data.drop (u.data.length + 17) = r.data := by
  rw [memory_key_data]
  rw [← List.drop_drop]
  rw [List.drop_left]
  rw [List.drop_succ_cons]
  rw [show (16 : Nat) = 15 + 1 from rfl]
  rw [← List.drop_drop]
  rw [List.drop_left' (tsFmt_data_length t)]
  rfl

theorem memory_key_rand_inj (u : String) (t1 t2 : Timestamp) (r1 r2 : String)
    (h : memory_key u t1 r1 = memory_key u t2 r2) : r1 = r2 := by
  have h1 := congrArg String.data h
  have h2 := congrArg (fun l => List.drop (u.data.length + 17) l) h1
  simp only [memory_key_suffix] at h2
  exact congrArg String.mk h2

/-! ### Claim theorems -/

/-- Claim C1: user isolation — every record in the result of a `retrieve` or
`list` call has its `owner` field equal to the owner requested in that call, so
a record stored under one owner never appears in another owner's results. -/
theorem C1_user_isolation (embed : String → Option (List Rat))
    (sim : List Rat → List Rat → Rat) (st : State) (query u : String)
    (top_k : Nat) (min_score : Rat) (res : List (MemoryRecord × Rat))
    (lres : List MemoryRecord)
    (hr : retrieve embed sim st query u top_k min_score = .ok res)
    (hl : list st u = .ok lres) :
    (∀ p ∈ res, p.1.owner = u) ∧ (∀ r ∈ lres, r.owner = u) := by
  constructor
  · intro p hp
    rcases retrieve_ok_elim _ _ _ _ _ _ _ _ hr with ⟨qv, _, _, _, _, hres⟩
    rw [hres] at hp
    have h1 := List.take_subset _ _ hp
    have h2 := (mem_isortBy _ _ _).mp h1
    have h3 := List.mem_filter.mp h2
    exact (mem_backendQuery sim st qv u p h3.1).1
  · intro r hrm
    have hlres : lres = ownerRecords st u := by
      by_cases hu : u = ""
      · simp [list, hu] at hl
      · simp only [list, hu, if_false] at hl
        exact (Except.ok.inj hl).symm
    rw [hlres] at hrm
    rcases List.mem_filter.mp hrm with ⟨_, hbeq⟩
    simpa using hbeq

/-- Witness for C1 on a concrete state holding records of two owners. -/
theorem C1_user_isolation_witness :
    retrieve embed0 sim0 st0 "alpha" "u1" 5 0 = .ok [(rec1, 1), (rec3, 0)] ∧
    list st0 "u1" = .ok [rec1, rec3] ∧
    ((∀ p ∈ [(rec1, (1 : Rat)), (rec3, 0)], p.1.owner = "u1") ∧
      (∀ r ∈ [rec1, rec3], r.owner = "u1")) :=
  ⟨by rfl, by rfl, C1_user_isolation embed0 sim0 st0 "alpha" "u1" 5 0
    [(rec1, 1), (rec3, 0)] [rec1, rec3] (by rfl) (by rfl)⟩

/-- Claim C2: threshold correctness — every result of a `retrieve` call with
threshold `min_score` has a score at least `min_score`. -/
theorem C2_threshold_correctness (embed : String → Option (List Rat))
    (sim : List Rat → List Rat → Rat) (st : State) (query u : String)
    (top_k : Nat) (min_score : Rat) (res : List (MemoryRecord × Rat))
    (hr : retrieve embed sim st query u top_k min_score = .ok res) :
    ∀ p ∈ res, min_score ≤ p.2 := by
  intro p hp
  rcases retrieve_ok_elim _ _ _ _ _ _ _ _ hr with ⟨qv, _, _, _, _, hres⟩
  rw [hres] at hp
  have h1 := List.take_subset _ _ hp
  have h2 := (mem_isortBy _ _ _).mp h1
  have h3 := (List.mem_filter.mp h2).2
  exact of_decide_eq_true h3

/-- Witness for C2 on a concrete state; the record scoring below the threshold
is discarded. -/
theorem C2_threshold_correctness_witness :
    retrieve embed0 sim0 st0 "alpha" "u1" 5 defaultMinScore = .ok [(rec1, 1)] ∧
    (∀ p ∈ [(rec1, (1 : Rat))], defaultMinScore ≤ p.2) :=
  ⟨by rfl, C2_threshold_correctness embed0 sim0 st0 "alpha" "u1" 5 defaultMinScore
    [(rec1, 1)] (by rfl)⟩

/-- Claim C3: top-k bound and ordering — a `retrieve` result has length at most
`top_k` and is sorted by descending score, ties between equal scores broken by
more-recent `created_at` first. -/
theorem C3_topk_bound_and_order (embed : String → Option (List Rat))
    (sim : List Rat → List Rat → Rat) (st : State) (query u : String)
    (top_k : Nat) (min_score : Rat) (res : List (MemoryRecord × Rat))
    (hr : retrieve embed sim st query u top_k min_score = .ok res) :
    res.length ≤ top_k ∧
      res.Pairwise (fun a b =>
        b.2 < a.2 ∨ (a.2 = b.2 ∧ b.1.created_at ≤ a.1.created_at)) := by
  rcases retrieve_ok_elim _ _ _ _ _ _ _ _ hr with ⟨qv, _, _, _, _, hres⟩
  rw [hres]
  constructor
  · rw [List.length_take]
    exact Nat.min_le_left _ _
  · have hp := pairwise_isortBy rankPref rankPref_total rankPref_trans
      ((backendQuery sim st qv u).filter (fun p => decide (min_score ≤ p.2)))
    have hs := List.Pairwise.sublist (List.take_sublist top_k _) hp
    exact hs.imp (fun h => (rankPref_iff _ _).mp h)

/-- Witness for C3 on a concrete state where two results are returned in
descending score order. -/
theorem C3_topk_bound_and_order_witness :
    retrieve embed0 sim0 st0 "alpha" "u1" 5 0 = .ok [(rec1, 1), (rec3, 0)] ∧
    ([(rec1, (1 : Rat)), (rec3, 0)].length ≤ 5 ∧
      List.Pairwise (fun a b =>
        b.2 < a.2 ∨ (a.2 = b.2 ∧ b.1.created_at ≤ a.1.created_at))
        [(rec1, (1 : Rat)), (rec3, 0)]) :=
  ⟨by rfl, C3_topk_bound_and_order embed0 sim0 st0 "alpha" "u1" 5 0
    [(rec1, 1), (rec3, 0)] (by rfl)⟩

/-- The ids of an owner's records after a trace of stores are the ids the owner
held before plus exactly the ids successfully returned by the trace. -/
theorem runStores_ownerRecords (embed : String → Option (List Rat)) (u : String) :
    ∀ (ops : List StoreCall) (st : State),
      (ownerRecords (runStores embed st ops) u).map (fun r => r.id) =
        (ownerRecords st u).map (fun r => r.id) ++ storedIds embed st u ops := by
  intro ops
  induction ops with
  | nil => intro st; simp [runStores, storedIds]
  | cons c cs ih =>
      intro st
      cases hst : store embed st c.content c.user_id c.now c.rand with
      | error e =>
          simp only [runStores, storedIds, hst]
          exact ih st
      | ok pr =>
          obtain ⟨st', key⟩ := pr
          rcases store_ok embed st c.content c.user_id c.now c.rand st' key hst with
            ⟨vec, _, _, _, _, hst'⟩
          simp only [runStores, storedIds, hst]
          rw [ih st', hst']
          simp only [ownerRecords, List.filter_append, List.map_append,
            List.append_assoc]
          by_cases hcu : c.user_id = u
          · simp [hcu]
          · have hbeq : (c.user_id == u) = false := by
              simp [hcu]
            simp [hbeq, hcu]

/-- Claim C4: completeness of listing — after any trace of `store` calls
starting from the empty state, `list(owner)` succeeds and returns exactly the
records whose ids were successfully handed out for that owner by the trace, in
particular no foreign and no missing record. -/
theorem C4_list_completeness (embed : String → Option (List Rat)) (u : String)
    (hu : u ≠ "") (ops : List StoreCall) :
    ∃ lres, list (runStores embed [] ops) u = .ok lres ∧
      lres.map (fun r => r.id) = storedIds embed [] u ops := by
  refine ⟨ownerRecords (runStores embed [] ops) u, by simp [list, hu], ?_⟩
  have h := runStores_ownerRecords embed u ops []
  simpa [ownerRecords] using h

/-- Witness for C4 on a concrete trace: two successful stores for two owners
and one failing store. -/
theorem C4_list_completeness_witness :
    ∃ lres, list (runStores embed0 [] ops0) "u1" = .ok lres ∧
      lres.map (fun r => r.id) = storedIds embed0 [] "u1" ops0 :=
  C4_list_completeness embed0 "u1" (by decide) ops0

/-- Claim C5: no implicit deduplication — storing the same content twice for
the same owner succeeds both times, appends two records, and the two returned
ids differ whenever the random suffixes drawn for the two calls differ. -/
theorem C5_store_no_dedup (embed : String → Option (List Rat)) (st : State)
    (content u : String) (t1 t2 : Timestamp) (r1 r2 : String) (vec : List Rat)
    (hu : u ≠ "") (hc : content ≠ "") (he : embed content = some vec)
    (hr : r1 ≠ r2) :
    ∃ st1 k1 st2 k2,
      store embed st content u t1 r1 = .ok (st1, k1) ∧
      store embed st1 content u t2 r2 = .ok (st2, k2) ∧
      k1 ≠ k2 ∧
      st2 = st ++ [⟨k1, u, content, vec, tsCode t1⟩,
        ⟨k2, u, content, vec, tsCode t2⟩] := by
  refine ⟨st ++ [⟨memory_key u t1 r1, u, content, vec, tsCode t1⟩],
    memory_key u t1 r1,
    st ++ [⟨memory_key u t1 r1, u, content, vec, tsCode t1⟩,
      ⟨memory_key u t2 r2, u, content, vec, tsCode t2⟩],
    memory_key u t2 r2, ?_, ?_, ?_, ?_⟩
  · simp [store, hu, hc, he]
  · simp [store, hu, hc, he]
  · intro hk
    exact hr (memory_key_rand_inj u t1 t2 r1 r2 hk)
  · rfl

/-- Witness for C5: two concrete stores of the same content for the same owner
yield two records under two distinct keys. -/
theorem C5_store_no_dedup_witness :
    ∃ st1 k1 st2 k2,
      store embed0 [] "alpha" "u1" t0 "abc123" = .ok (st1, k1) ∧
      store embed0 st1 "alpha" "u1" t0 "def456" = .ok (st2, k2) ∧
      k1 ≠ k2 ∧
      st2 = [] ++ [⟨k1, "u1", "alpha", [(5 : Rat)], tsCode t0⟩,
        ⟨k2, "u1", "alpha", [(5 : Rat)], tsCode t0⟩] :=
  C5_store_no_dedup embed0 [] "alpha" "u1" t0 t0 "abc123" "def456" [(5 : Rat)]
    (by decide) (by decide) (by rfl) (by decide)

/-- Claim C6: authorization guard — every action of the tool invoked with a
missing or empty `user_id` fails with `AuthorizationError`, whatever the other
arguments are. -/
theorem C6_authorization_guard (embed : String → Option (List Rat))
    (sim : List Rat → List Rat → Rat) (st : State) (action : Action)
    (p : Params) (now : Timestamp) (rand : String)
    (h : p.user_id = none ∨ p.user_id = some "") :
    s3_vector_memory embed sim st action p now rand =
      .error .AuthorizationError := by
  have hu : p.user_id.getD "" = "" := by
    rcases h with h | h <;> simp [h]
  cases action <;>
    simp [s3_vector_memory, hu, store, retrieve, list, auto_store_and_retrieve,
      auto_context, Except.map]

/-- Witness for C6: a concrete call with `user_id = none` is rejected. -/
theorem C6_authorization_guard_witness :
    (p0.user_id = none ∨ p0.user_id = some "") ∧
    s3_vector_memory embed0 sim0 st0 Action.retrieve p0 t0 "r" =
      .error .AuthorizationError :=
  ⟨Or.inl rfl, C6_authorization_guard embed0 sim0 st0 Action.retrieve p0 t0 "r"
    (Or.inl rfl)⟩

/-- Claim C7: empty result is success — a `retrieve` call on a valid input
where no record of the owner clears the threshold returns a success with the
empty list, and a `list` call for an owner with no records does the same. -/
theorem C7_empty_result_success (embed : String → Option (List Rat))
    (sim : List Rat → List Rat → Rat) (st : State) (query u : String)
    (top_k : Nat) (min_score : Rat) (qv : List Rat)
    (hu : u ≠ "") (hq : query ≠ "") (hk : top_k ≠ 0)
    (he : embed query = some qv) :
    ((∀ r ∈ ownerRecords st u, sim qv r.embedding < min_score) →
      retrieve embed sim st query u top_k min_score = .ok []) ∧
    ((∀ r ∈ st, r.owner ≠ u) → list st u = .ok []) := by
  constructor
  · intro hbelow
    rw [retrieve_eq embed sim st query u top_k min_score qv hu hq hk he]
    have hnil : (backendQuery sim st qv u).filter
        (fun p => decide (min_score ≤ p.2)) = [] := by
      refine List.filter_eq_nil_iff.mpr ?_
      intro p hp hdec
      rcases mem_backendQuery sim st qv u p hp with ⟨ho, hmem, hs⟩
      have hrm : p.1 ∈ ownerRecords st u :=
        List.mem_filter.mpr ⟨hmem, by simp [ho]⟩
      have hlt := hbelow p.1 hrm
      rw [decide_eq_true_eq, hs] at hdec
      exact absurd hdec (not_le.mpr hlt)
    rw [hnil]
    simp [isortBy]
  · intro hnone
    have hor : ownerRecords st u = [] := by
      refine List.filter_eq_nil_iff.mpr ?_
      intro r hrm hbeq
      exact hnone r hrm (by simpa using hbeq)
    simp [list, hu, hor]

/-- Witness for C7: a query on which every record of the owner scores below
the threshold yields `ok []`, and listing an unknown owner yields `ok []`. -/
theorem C7_empty_result_success_witness :
    retrieve embed0 sim0 st0 "zeta" "u1" 5 2 = .ok [] ∧ list st0 "u3" = .ok [] :=
  ⟨(C7_empty_result_success embed0 sim0 st0 "zeta" "u1" 5 2 [(4 : Rat)]
      (by decide) (by decide) (by decide) (by rfl)).1 (by decide),
    (C7_empty_result_success embed0 sim0 st0 "zeta" "u3" 5 2 [(4 : Rat)]
      (by decide) (by decide) (by decide) (by rfl)).2 (by decide)⟩

/-- Claim C8: graceful degradation — with content present,
`auto_store_and_retrieve` runs the store step first, reports its outcome
(success or failure) without aborting, and then returns alongside it the
result of retrieving with the query (or the content when no query is given)
on the post-store state, under the default `topK` and `minScore`. -/
theorem C8_auto_store_degradation (embed : String → Option (List Rat))
    (sim : List Rat → List Rat → Rat) (st : State) (u c : String)
    (query : Option String) (now : Timestamp) (rand : String) (hu : u ≠ "") :
    auto_store_and_retrieve embed sim st u (some c) query now rand =
      .ok ⟨autoState embed st c u now rand,
        some ((store embed st c u now rand).map (fun r => r.2)),
        retrieve embed sim (autoState embed st c u now rand) (query.getD c) u
          defaultTopK defaultMinScore⟩ := by
  cases hst : store embed st c u now rand with
  | ok pr =>
      obtain ⟨st', key⟩ := pr
      simp [auto_store_and_retrieve, hu, hst, autoState, Except.map]
  | error e =>
      simp [auto_store_and_retrieve, hu, hst, autoState, Except.map]

/-- Witness for C8: a failing store step (embedding failure on "bad") is
reported while the retrieval still runs and its result is returned. -/
theorem C8_auto_store_degradation_witness :
    auto_store_and_retrieve embed1 sim0 st0 "u1" (some "bad") (some "alpha")
        t0 "r" =
      .ok ⟨autoState embed1 st0 "bad" "u1" t0 "r",
        some ((store embed1 st0 "bad" "u1" t0 "r").map (fun r => r.2)),
        retrieve embed1 sim0 (autoState embed1 st0 "bad" "u1" t0 "r")
          ((some "alpha").getD "bad") "u1" defaultTopK defaultMinScore⟩ :=
  C8_auto_store_degradation embed1 sim0 st0 "u1" "bad" (some "alpha") t0 "r"
    (by decide)

/-- Claim C9: record-id shape — a successful `store` returns a key of the form
owner, underscore, an eight-digit date, an underscore, a six-digit time
(second resolution), an underscore and the random suffix; in particular the
owner string is a prefix of every record id. -/
theorem C9_memory_key_shape (embed : String → Option (List Rat)) (st : State)
    (content user_id : String) (now : Timestamp) (rand : String) (st' : State)
    (key : String)
    (h : store embed st content user_id now rand = .ok (st', key)) :
    key = user_id ++ "_" ++ tsFmt now ++ "_" ++ rand ∧
    (tsFmt now).data = dateChars now ++ '_' :: timeChars now ∧
    (dateChars now).length = 8 ∧ (timeChars now).length = 6 ∧
    (dateChars now).all Char.isDigit = true ∧
    (timeChars now).all Char.isDigit = true ∧
    ∃ rest, key = user_id ++ rest := by
  rcases store_ok _ _ _ _ _ _ _ _ h with ⟨vec, _, _, _, hkey, _⟩
  refine ⟨hkey, tsFmt_data now, dateChars_length now, timeChars_length now,
    dateChars_all_digit now, timeChars_all_digit now,
    "_" ++ (tsFmt now ++ ("_" ++ rand)), ?_⟩
  rw [hkey]
  simp [memory_key, String.append_assoc]

/-- Witness for C9: a concrete store returns the key
`u1_20250108_143022_abc123`, matching the README's documented shape. -/
theorem C9_memory_key_shape_witness :
    store embed0 [] "alpha" "u1" t0 "abc123" =
      .ok ([⟨"u1_20250108_143022_abc123", "u1", "alpha", [(5 : Rat)],
        20250108143022⟩], "u1_20250108_143022_abc123") ∧
    ("u1_20250108_143022_abc123" = "u1" ++ "_" ++ tsFmt t0 ++ "_" ++ "abc123" ∧
      (tsFmt t0).data = dateChars t0 ++ '_' :: timeChars t0 ∧
      (dateChars t0).length = 8 ∧ (timeChars t0).length = 6 ∧
      (dateChars t0).all Char.isDigit = true ∧
      (timeChars t0).all Char.isDigit = true ∧
      ∃ rest, "u1_20250108_143022_abc123" = "u1" ++ rest) :=
  ⟨by rfl, C9_memory_key_shape embed0 [] "alpha" "u1" t0 "abc123"
    [⟨"u1_20250108_143022_abc123", "u1", "alpha", [(5 : Rat)], 20250108143022⟩]
    "u1_20250108_143022_abc123" (by rfl)⟩

/-- Claim C10: monotonicity in `min_score` — for a fixed state, owner, query
and `top_k`, every result returned by `retrieve` under a threshold `m` is also
returned under any threshold `m1 ≤ m`. -/
theorem C10_min_score_monotone (embed : String → Option (List Rat))
    (sim : List Rat → List Rat → Rat) (st : State) (query u : String)
    (top_k : Nat) (m m1 : Rat) (res res1 : List (MemoryRecord × Rat))
    (hm : m1 ≤ m)
    (h1 : retrieve embed sim st query u top_k m = .ok res)
    (h2 : retrieve embed sim st query u top_k m1 = .ok res1) :
    ∀ x ∈ res, x ∈ res1 := by
  intro x hx
  rcases retrieve_ok_elim _ _ _ _ _ _ _ _ h1 with ⟨qv, hu, hq, hk, he, hres⟩
  rcases retrieve_ok_elim _ _ _ _ _ _ _ _ h2 with ⟨qv2, _, _, _, he2, hres2⟩
  rw [he] at he2
  obtain rfl : qv = qv2 := Option.some.inj he2
  have hup : ∀ a b, rankPref a b = true →
      (fun p : MemoryRecord × Rat => decide (m ≤ p.2)) b = true →
      (fun p : MemoryRecord × Rat => decide (m ≤ p.2)) a = true :=
    fun a b hab hb => rankPref_upclosed m a b hab hb
  have hff : (backendQuery sim st qv u).filter
        (fun p => decide (m ≤ p.2)) =
      ((backendQuery sim st qv u).filter (fun p => decide (m1 ≤ p.2))).filter
        (fun p => decide (m ≤ p.2)) := by
    rw [List.filter_filter]
    refine (List.filter_congr ?_)
    intro a _
    by_cases hma : m ≤ a.2
    · have hm1a : m1 ≤ a.2 := le_trans hm hma
      simp [hma, hm1a]
    · simp [hma]
  have hkey : isortBy rankPref ((backendQuery sim st qv u).filter
        (fun p => decide (m ≤ p.2))) =
      (isortBy rankPref ((backendQuery sim st qv u).filter
        (fun p => decide (m1 ≤ p.2)))).filter (fun p => decide (m ≤ p.2)) := by
    rw [hff]
    exact isortBy_filter rankPref _ rankPref_total rankPref_trans hup _
  have htw : (isortBy rankPref ((backendQuery sim st qv u).filter
        (fun p => decide (m1 ≤ p.2)))).filter (fun p => decide (m ≤ p.2)) =
      (isortBy rankPref ((backendQuery sim st qv u).filter
        (fun p => decide (m1 ≤ p.2)))).takeWhile (fun p => decide (m ≤ p.2)) :=
    filter_eq_takeWhile_of_sorted rankPref _ hup _
      (pairwise_isortBy rankPref rankPref_total rankPref_trans _)
  rw [hres] at hx
  rw [hres2]
  rw [hkey, htw] at hx
  exact mem_take_takeWhile _ x _ top_k hx

/-- Witness for C10: lowering the threshold from 1 to 0 keeps every previous
result in the result set. -/
theorem C10_min_score_monotone_witness :
    (0 : Rat) ≤ 1 ∧
    retrieve embed0 sim0 st0 "alpha" "u1" 5 1 = .ok [(rec1, 1)] ∧
    retrieve embed0 sim0 st0 "alpha" "u1" 5 0 = .ok [(rec1, 1), (rec3, 0)] ∧
    (∀ x ∈ [(rec1, (1 : Rat))], x ∈ [(rec1, (1 : Rat)), (rec3, 0)]) :=
  ⟨by decide, by rfl, by rfl,
    C10_min_score_monotone embed0 sim0 st0 "alpha" "u1" 5 1 0 [(rec1, 1)]
      [(rec1, 1), (rec3, 0)] (by decide) (by rfl) (by rfl)⟩

end S3Memory
